import Mathlib

/-
Verification of the audio effects pipeline of the text-to-speech backend.

The development shallowly embeds the DSP core of
`backend/app/services/voice_effects.py` (the `VoiceEffectsProcessor` class),
the parameter-validation layer of `backend/app/api/voice_effects.py`
(`apply_voice_effects`), the compression stage of
`backend/app/utils/audio_processing.py` (`AudioProcessor._apply_compression`)
and the decode-with-fallback logic of `VoiceEffectsProcessor._load_audio`.

Waveforms are lists of rational samples (the canonical mono float waveform,
with arithmetic taken exactly).  External engines (librosa pitch shift and
time stretch, and the numpy sine used for the robot carrier) are parameters
of the model: a fallible engine returns `Option`, mirroring a Python call
that either returns or raises.  Python `int()` on a non-negative float is
truncation, embedded as `Int.floor`/`Int.toNat`; `np.round` rounds half to
even, embedded as `npround`.
-/

/-- Truncation of a non-negative value as Python's `int()`: the floor,
taken with the computable `Rat.floor` and clamped to ℕ. -/
def pyInt (x : ℚ) : ℕ := x.floor.toNat

/-- Bridge between the computable `Rat.floor` and Mathlib's `⌊⌋`. -/
theorem ratFloor_eq_intFloor (q : ℚ) : q.floor = ⌊q⌋ := by
  rw [Rat.floor_def', Rat.floor_def]

/-- Half-to-even rounding, the behaviour of `np.round` on exact values. -/
def npround (x : ℚ) : ℤ :=
  if x - x.floor < 1/2 then x.floor
  else if 1/2 < x - x.floor then x.floor + 1
  else if 2 ∣ x.floor then x.floor else x.floor + 1

/-- Rounding to nearest (half away from zero on the non-negative values
used here), the plain reading of the spec's `round`; all comparisons with
it below stay away from ties, where the conventions agree. -/
def roundNearest (x : ℚ) : ℤ := (x + 1/2).floor

-- Evaluation lemmas for the computable floor-based helpers.

theorem ratFloor_eq {x : ℚ} {z : ℤ} (h1 : (z : ℚ) ≤ x) (h2 : x < z + 1) :
    x.floor = z := by
  rw [ratFloor_eq_intFloor]
  exact Int.floor_eq_iff.mpr ⟨h1, h2⟩

theorem pyInt_eq {x : ℚ} {n : ℕ} (h1 : (n : ℚ) ≤ x) (h2 : x < n + 1) :
    pyInt x = n := by
  rw [pyInt, ratFloor_eq (z := (n : ℤ)) (by exact_mod_cast h1) (by push_cast; exact h2)]
  simp

theorem roundNearest_toNat_eq {x : ℚ} {n : ℕ}
    (h1 : (n : ℚ) ≤ x + 1/2) (h2 : x + 1/2 < n + 1) :
    (roundNearest x).toNat = n := by
  rw [roundNearest,
    ratFloor_eq (z := (n : ℤ)) (by exact_mod_cast h1) (by push_cast; exact h2)]
  simp

theorem npround_eq_lo {x : ℚ} {z : ℤ} (h1 : (z : ℚ) ≤ x) (h2 : x - z < 1/2) :
    npround x = z := by
  have hf : x.floor = z := ratFloor_eq h1 (by linarith)
  rw [npround, hf, if_pos h2]

theorem npround_eq_hi {x : ℚ} {z : ℤ} (h1 : (z : ℚ) ≤ x) (h2 : 1/2 < x - z)
    (h3 : x < z + 1) : npround x = z + 1 := by
  have hf : x.floor = z := ratFloor_eq h1 h3
  rw [npround, hf, if_neg (by linarith), if_pos h2]

/-- The value of `np.sign` on an exact sample. -/
def npsign (x : ℚ) : ℚ :=
  if 0 < x then 1 else if x < 0 then -1 else 0

/-- `np.max(np.abs(audio))` over a waveform, 0 for the empty waveform
(on the empty array numpy raises, the `except` branch of
`_normalize_audio` then returns the input, which coincides with the
`max_val = 0` branch of this model). -/
def listMaxAbs (w : List ℚ) : ℚ := w.foldr (fun x m => max |x| m) 0

/-- `VoiceEffectsProcessor._normalize_audio`: peak normalization to 0.95,
identity on a silent (or empty) waveform. -/
def normalizeAudio (w : List ℚ) : List ℚ :=
  let m := listMaxAbs w
  if 0 < m then w.map (fun x => x / m * (19/20)) else w

-- Basic facts about `listMaxAbs`.

theorem listMaxAbs_cons (a : ℚ) (t : List ℚ) :
    listMaxAbs (a :: t) = max |a| (listMaxAbs t) := rfl

theorem listMaxAbs_nonneg (w : List ℚ) : 0 ≤ listMaxAbs w := by
  induction w with
  | nil => simp [listMaxAbs]
  | cons a t ih =>
      rw [listMaxAbs_cons]
      exact le_trans ih (le_max_right _ _)

theorem abs_le_listMaxAbs {w : List ℚ} {x : ℚ} (hx : x ∈ w) : |x| ≤ listMaxAbs w := by
  induction w with
  | nil => cases hx
  | cons a t ih =>
      rw [listMaxAbs_cons]
      rcases List.mem_cons.mp hx with h | h
      · subst h; exact le_max_left _ _
      · exact le_trans (ih h) (le_max_right _ _)

theorem listMaxAbs_map_mul (w : List ℚ) (c : ℚ) (hc : 0 ≤ c) :
    listMaxAbs (w.map (fun x => x * c)) = listMaxAbs w * c := by
  induction w with
  | nil => simp [listMaxAbs]
  | cons a t ih =>
      rw [List.map_cons, listMaxAbs_cons, listMaxAbs_cons, ih, abs_mul,
        abs_of_nonneg hc, max_mul_of_nonneg _ _ hc]

theorem listMaxAbs_eq_zero_of_silent {w : List ℚ} (h : ∀ x ∈ w, x = 0) :
    listMaxAbs w = 0 := by
  induction w with
  | nil => rfl
  | cons a t ih =>
      rw [listMaxAbs_cons, h a (List.mem_cons_self a t),
        ih (fun x hx => h x (List.mem_cons_of_mem a hx))]
      simp

theorem listMaxAbs_pos_of_nonsilent {w : List ℚ} (h : ∃ x ∈ w, x ≠ 0) :
    0 < listMaxAbs w := by
  obtain ⟨x, hx, hx0⟩ := h
  exact lt_of_lt_of_le (abs_pos.mpr hx0) (abs_le_listMaxAbs hx)

theorem normalizeAudio_scale (w : List ℚ) (h : 0 < listMaxAbs w) :
    normalizeAudio w = w.map (fun x => x * (19/20 / listMaxAbs w)) := by
  simp only [normalizeAudio, if_pos h]
  exact List.map_congr_left (fun x _ => by rw [div_mul_eq_mul_div, mul_div_assoc])

theorem listMaxAbs_normalizeAudio (w : List ℚ) (h : 0 < listMaxAbs w) :
    listMaxAbs (normalizeAudio w) = 19/20 := by
  rw [normalizeAudio_scale w h,
    listMaxAbs_map_mul _ _ (le_of_lt (div_pos (by norm_num) h))]
  have hm : listMaxAbs w ≠ 0 := ne_of_gt h
  field_simp
  ring

/-- Claim C4: Normalize is idempotent; for every non-silent waveform the
peak of `Normalize(w)` is exactly 0.95; and on a silent waveform Normalize
is a no-op. -/
theorem normalize_idempotent_peak (w : List ℚ) :
    normalizeAudio (normalizeAudio w) = normalizeAudio w ∧
    ((∃ x ∈ w, x ≠ 0) → listMaxAbs (normalizeAudio w) = 19/20) ∧
    ((∀ x ∈ w, x = 0) → normalizeAudio w = w) := by
  refine ⟨?_, ?_, ?_⟩
  · by_cases h : 0 < listMaxAbs w
    · have hpeak : listMaxAbs (normalizeAudio w) = 19/20 := listMaxAbs_normalizeAudio w h
      set v := normalizeAudio w with hv
      have hvp : (0 : ℚ) < 19/20 := by norm_num
      simp only [normalizeAudio, hpeak, if_pos hvp]
      have : ∀ x ∈ v, x / (19/20) * (19/20) = x := by
        intro x _
        exact div_mul_cancel₀ x (by norm_num)
      rw [List.map_congr_left this, List.map_id']
    · simp only [normalizeAudio, if_neg h]
  · intro hn
    exact listMaxAbs_normalizeAudio w (listMaxAbs_pos_of_nonsilent hn)
  · intro hs
    simp only [normalizeAudio, listMaxAbs_eq_zero_of_silent hs]
    norm_num

/-- Instance of `normalize_idempotent_peak` on the waveform `[1/2, -2]`. -/
theorem normalize_idempotent_peak_witness :
    normalizeAudio (normalizeAudio [1/2, -2]) = normalizeAudio [1/2, -2] ∧
    listMaxAbs (normalizeAudio [1/2, -2]) = 19/20 := by
  refine ⟨(normalize_idempotent_peak [1/2, -2]).1, ?_⟩
  exact (normalize_idempotent_peak [1/2, -2]).2.1 ⟨-2, by simp, by norm_num⟩

-- The echo effect.

/-- `VoiceEffectsProcessor._apply_echo`.  `delay_samples = int(delay * sr)`
is truncation of a non-negative value, i.e. the floor.  When the computed
delay is 0 samples and the waveform is non-empty, the numpy slice
assignment `delayed_audio[0:] = audio[:-0] * decay` raises (shape (0,)
cannot broadcast into shape (n,)); the `except` branch then returns the
input unchanged. -/
def applyEcho (w : List ℚ) (sr : ℕ) (delay decay : ℚ) : List ℚ :=
  if pyInt (delay * sr) = 0 ∧ w ≠ [] then w
  else (List.range w.length).map
    (fun n => w.getD n 0 +
      if pyInt (delay * sr) ≤ n then decay * w.getD (n - pyInt (delay * sr)) 0 else 0)

/-- Modelled from the spec's words, for comparison with `applyEcho`:
the spec states `d = round(delay_s * sr)` (rounding to nearest rather
than the source's truncation). -/
def echoSpecRound (w : List ℚ) (sr : ℕ) (delay decay : ℚ) : List ℚ :=
  (List.range w.length).map
    (fun n => w.getD n 0 +
      if (roundNearest (delay * sr)).toNat ≤ n
      then decay * w.getD (n - (roundNearest (delay * sr)).toNat) 0 else 0)

theorem range_map_getD (w : List ℚ) (f : ℕ → ℚ)
    (hf : ∀ n, n < w.length → f n = w.getD n 0) :
    (List.range w.length).map f = w := by
  apply List.ext_getElem
  · simp
  · intro i h1 h2
    simp only [List.getElem_map, List.getElem_range]
    rw [hf i h2, List.getD_eq_getElem w 0 h2]

/-- Claim C2 (amended): the source computes the delay in samples as
`int(delay * sr)`, i.e. the floor (truncation), not `round`; whenever that
delay is at least one sample, the output has the input's length and
`output[n] = w[n] + decay * w[n-d]` for `n ≥ d`, else `w[n]`.
(The 22050 Hz scenario follows with `d = ⌊0.3 * 22050⌋ = 6615`.) -/
theorem echo_formula (w : List ℚ) (sr : ℕ) (delay decay : ℚ)
    (hd1 : 1/10 ≤ delay) (hd2 : delay ≤ 2)
    (hc1 : 1/10 ≤ decay) (hc2 : decay ≤ 9/10)
    (hpos : 1 ≤ pyInt (delay * sr)) :
    (applyEcho w sr delay decay).length = w.length ∧
    ∀ n, n < w.length →
      (applyEcho w sr delay decay).getD n 0 =
        if pyInt (delay * sr) ≤ n
        then w.getD n 0 + decay * w.getD (n - pyInt (delay * sr)) 0
        else w.getD n 0 := by
  have hne : ¬(pyInt (delay * sr) = 0 ∧ w ≠ []) := by
    rintro ⟨h0, -⟩
    omega
  constructor
  · rw [applyEcho, if_neg hne]
    simp
  · intro n hn
    rw [applyEcho, if_neg hne]
    rw [List.getD_eq_getElem _ 0 (by simpa using hn), List.getElem_map,
      List.getElem_range]
    by_cases hc : pyInt (delay * sr) ≤ n <;> simp [hc]

/-- Instance of `echo_formula`: sr = 10, delay 0.3, decay 0.5, so d = 3,
on the waveform `[1, 0, 0, 0, 0]`. -/
theorem echo_formula_witness :
    (applyEcho [1, 0, 0, 0, 0] 10 (3/10) (1/2)).length = 5 ∧
    (applyEcho [1, 0, 0, 0, 0] 10 (3/10) (1/2)).getD 3 0 = 1/2 := by
  have hpy : pyInt ((3 : ℚ)/10 * (10 : ℕ)) = 3 :=
    pyInt_eq (by push_cast; norm_num) (by push_cast; norm_num)
  have h := echo_formula [1, 0, 0, 0, 0] 10 (3/10) (1/2)
    (by norm_num) (by norm_num) (by norm_num) (by norm_num) (by rw [hpy]; norm_num)
  refine ⟨h.1, ?_⟩
  rw [h.2 3 (by norm_num), hpy]
  norm_num [List.getD]

/-- Claim C2 fails as stated: with the valid delay 0.3 s and sr = 9 Hz,
`int(0.3 * 9) = 2` while `round(0.3 * 9) = 3`, and on `[1, 0, 0]` the
source's echo output differs from the spec's rounded-delay prediction
(sample 2 gains an echo of sample 0 in the source, none in the spec). -/
theorem echo_round_counterexample :
    (1/10 : ℚ) ≤ 3/10 ∧ (3/10 : ℚ) ≤ 2 ∧ (1/10 : ℚ) ≤ 1/2 ∧ (1/2 : ℚ) ≤ 9/10 ∧
    applyEcho [1, 0, 0] 9 (3/10) (1/2) ≠ echoSpecRound [1, 0, 0] 9 (3/10) (1/2) := by
  refine ⟨by norm_num, by norm_num, by norm_num, by norm_num, ?_⟩
  have hpy : pyInt ((3 : ℚ)/10 * (9 : ℕ)) = 2 :=
    pyInt_eq (by push_cast; norm_num) (by push_cast; norm_num)
  have hrn : (roundNearest ((3 : ℚ)/10 * (9 : ℕ))).toNat = 3 :=
    roundNearest_toNat_eq (by push_cast; norm_num) (by push_cast; norm_num)
  have h1 : (applyEcho [1, 0, 0] 9 (3/10) (1/2)).getD 2 0 = 1/2 := by
    rw [applyEcho, if_neg (by rw [hpy]; simp)]
    rw [List.getD_eq_getElem _ 0 (by simp), List.getElem_map, List.getElem_range, hpy]
    norm_num [List.getD]
  have h2 : (echoSpecRound [1, 0, 0] 9 (3/10) (1/2)).getD 2 0 = 0 := by
    rw [echoSpecRound]
    rw [List.getD_eq_getElem _ 0 (by simp), List.getElem_map, List.getElem_range, hrn]
    norm_num [List.getD]
  intro heq
  rw [heq, h2] at h1
  norm_num at h1

/-- Claim C9: when the delay in samples reaches or exceeds the waveform's
length, the delayed copy falls entirely past the end and Echo returns the
input unchanged. -/
theorem echo_identity_past_end (w : List ℚ) (sr : ℕ) (delay decay : ℚ)
    (hd1 : 1/10 ≤ delay) (hd2 : delay ≤ 2)
    (hc1 : 1/10 ≤ decay) (hc2 : decay ≤ 9/10)
    (hlen : w.length ≤ pyInt (delay * sr)) :
    applyEcho w sr delay decay = w := by
  by_cases h0 : pyInt (delay * sr) = 0 ∧ w ≠ []
  · rw [applyEcho, if_pos h0]
  · rw [applyEcho, if_neg h0]
    refine range_map_getD w _ (fun n hn => ?_)
    have hnd : ¬(pyInt (delay * sr) ≤ n) := by omega
    simp [hnd]

/-- Instance of `echo_identity_past_end`: delay 0.5 s at 10 Hz is 5
samples, past the end of the 2-sample waveform `[1, -1]`. -/
theorem echo_identity_past_end_witness :
    applyEcho [1, -1] 10 (1/2) (1/2) = [1, -1] := by
  have hpy : pyInt ((1 : ℚ)/2 * (10 : ℕ)) = 5 :=
    pyInt_eq (by push_cast; norm_num) (by push_cast; norm_num)
  exact echo_identity_past_end [1, -1] 10 (1/2) (1/2)
    (by norm_num) (by norm_num) (by norm_num) (by norm_num) (by rw [hpy]; norm_num)

-- The robot voice effect.

/-- Bit depth as `_apply_robot_voice` computes it:
`int(8 + (1 - intensity) * 8)`, i.e. truncation. -/
def bitDepthCode (intensity : ℚ) : ℕ := pyInt (8 + (1 - intensity) * 8)

/-- Modelled from the spec's words, for comparison: the spec states the
bit depth is `8 + round((1-intensity)*8)`. -/
def bitDepthSpec (intensity : ℚ) : ℕ :=
  8 + (roundNearest ((1 - intensity) * 8)).toNat

/-- The ring modulation `audio * (1 + intensity * carrier)` with carrier
`sin(2*pi*carrier_freq*t)`, `carrier_freq = 30 + intensity*100` and
`t = n/sr`.  The transcendental sine is not computable over ℚ, so the
carrier is abstracted: `sinTau x` stands for `sin(2*pi*x)` and is applied
at `x = carrier_freq * n / sr`. -/
def ringMod (sinTau : ℚ → ℚ) (w : List ℚ) (sr : ℕ) (intensity : ℚ) : List ℚ :=
  (List.range w.length).map
    (fun n => w.getD n 0 * (1 + intensity * sinTau ((30 + intensity * 100) * n / sr)))

/-- Amplitude quantization `np.round(x * max_val) / max_val` with
`max_val = 2 ** (bit_depth - 1)`. -/
def quantize (bd : ℕ) (x : ℚ) : ℚ :=
  (npround (x * 2 ^ (bd - 1)) : ℚ) / 2 ^ (bd - 1)

/-- `VoiceEffectsProcessor._apply_robot_voice`: ring modulation, then,
when `intensity > 0.3`, bit-depth quantization with the truncated bit
depth. -/
def applyRobotVoice (sinTau : ℚ → ℚ) (w : List ℚ) (sr : ℕ) (intensity : ℚ) : List ℚ :=
  if 3/10 < intensity then
    (ringMod sinTau w sr intensity).map (quantize (bitDepthCode intensity))
  else ringMod sinTau w sr intensity

/-- Modelled from the spec's words, for comparison with
`applyRobotVoice`: identical except that the quantization bit depth is
the spec's rounded `bitDepthSpec`. -/
def robotSpecQuant (sinTau : ℚ → ℚ) (w : List ℚ) (sr : ℕ) (intensity : ℚ) : List ℚ :=
  if 3/10 < intensity then
    (ringMod sinTau w sr intensity).map (quantize (bitDepthSpec intensity))
  else ringMod sinTau w sr intensity

theorem applyRobotVoice_zero (sinTau : ℚ → ℚ) (w : List ℚ) (sr : ℕ) :
    applyRobotVoice sinTau w sr 0 = w := by
  rw [applyRobotVoice, if_neg (by norm_num)]
  refine range_map_getD w _ (fun n hn => ?_)
  ring

theorem bitDepthCode_bounds {i : ℚ} (h1 : 3/10 < i) (h2 : i ≤ 1) :
    8 ≤ bitDepthCode i ∧ bitDepthCode i ≤ 13 := by
  have hv1 : (8 : ℚ) ≤ 8 + (1 - i) * 8 := by nlinarith
  have hv2 : 8 + (1 - i) * 8 < 14 := by nlinarith
  have hlo : (8 : ℤ) ≤ (8 + (1 - i) * 8 : ℚ).floor := by
    rw [ratFloor_eq_intFloor]
    exact Int.le_floor.mpr (by exact_mod_cast hv1)
  have hhi : ((8 + (1 - i) * 8 : ℚ)).floor < 14 := by
    rw [ratFloor_eq_intFloor]
    exact Int.floor_lt.mpr (by exact_mod_cast hv2)
  unfold bitDepthCode pyInt
  omega

/-- Claim C6 (amended): RobotVoice ring-modulates each sample by the
carrier `1 + intensity * sin(2*pi*(30+intensity*100)*n/sr)`; when
`intensity > 0.3` it additionally quantizes each modulated sample with
`np.round` at a bit depth of `int(8 + (1-intensity)*8)` — truncation,
not rounding, so the depth ranges over 8..13 (not 8..16). -/
theorem robot_voice_formula (sinTau : ℚ → ℚ) (w : List ℚ) (sr : ℕ) (i : ℚ)
    (hi0 : 0 ≤ i) (hi1 : i ≤ 1) :
    (applyRobotVoice sinTau w sr i).length = w.length ∧
    (¬(3/10 < i) → ∀ n, n < w.length →
      (applyRobotVoice sinTau w sr i).getD n 0 =
        w.getD n 0 * (1 + i * sinTau ((30 + i * 100) * n / sr))) ∧
    (3/10 < i → ∀ n, n < w.length →
      (applyRobotVoice sinTau w sr i).getD n 0 =
        quantize (bitDepthCode i)
          (w.getD n 0 * (1 + i * sinTau ((30 + i * 100) * n / sr)))) ∧
    (3/10 < i → 8 ≤ bitDepthCode i ∧ bitDepthCode i ≤ 13) := by
  have hlen : ∀ n, n < w.length → (ringMod sinTau w sr i).getD n 0 =
      w.getD n 0 * (1 + i * sinTau ((30 + i * 100) * n / sr)) := by
    intro n hn
    rw [ringMod, List.getD_eq_getElem _ 0 (by simpa using hn), List.getElem_map,
      List.getElem_range]
  refine ⟨?_, ?_, ?_, fun h => bitDepthCode_bounds h hi1⟩
  · by_cases h : 3/10 < i <;> simp [applyRobotVoice, h, ringMod]
  · intro h n hn
    rw [applyRobotVoice, if_neg h]
    exact hlen n hn
  · intro h n hn
    rw [applyRobotVoice, if_pos h]
    have hn' : n < (ringMod sinTau w sr i).length := by simp [ringMod, hn]
    rw [List.getD_eq_getElem _ 0 (by simpa using hn'), List.getElem_map,
      ← List.getD_eq_getElem _ 0 hn', hlen n hn]

/-- Instance of `robot_voice_formula` at intensity 1/5 (no quantization)
and a constant-zero carrier on `[2, 3]`. -/
theorem robot_voice_formula_witness :
    (applyRobotVoice (fun _ => 0) [2, 3] 4 (1/5)).length = 2 ∧
    (applyRobotVoice (fun _ => 0) [2, 3] 4 (1/5)).getD 1 0 =
      ([2, 3] : List ℚ).getD 1 0 * (1 + 1/5 * 0) := by
  have h := robot_voice_formula (fun _ => 0) [2, 3] 4 (1/5) (by norm_num) (by norm_num)
  exact ⟨h.1, h.2.1 (by norm_num) 1 (by norm_num)⟩

theorem getD_map_lt (f : ℚ → ℚ) (w : List ℚ) {n : ℕ} (hn : n < w.length) :
    (w.map f).getD n 0 = f (w.getD n 0) := by
  rw [List.getD_eq_getElem _ 0 (by simpa using hn), List.getElem_map,
    List.getD_eq_getElem _ 0 hn]

theorem ringMod_getD (sinTau : ℚ → ℚ) (w : List ℚ) (sr : ℕ) (i : ℚ) {n : ℕ}
    (hn : n < w.length) :
    (ringMod sinTau w sr i).getD n 0 =
      w.getD n 0 * (1 + i * sinTau ((30 + i * 100) * n / sr)) := by
  rw [ringMod, List.getD_eq_getElem _ 0 (by simpa using hn), List.getElem_map,
    List.getElem_range]

/-- Claim C6 fails as stated: at the valid intensity 0.4 (> 0.3), the
source quantizes with `int(8 + 0.6*8) = int(12.8) = 12` bits while the
spec's `8 + round(4.8) = 13`; on the waveform `[1/3]` (carrier fixed at
zero) the outputs differ: 683/2048 versus 1365/4096. -/
theorem robot_bitdepth_counterexample :
    (0 : ℚ) ≤ 2/5 ∧ (2/5 : ℚ) ≤ 1 ∧ (3/10 : ℚ) < 2/5 ∧
    applyRobotVoice (fun _ => 0) [1/3] 1 (2/5) ≠
      robotSpecQuant (fun _ => 0) [1/3] 1 (2/5) := by
  refine ⟨by norm_num, by norm_num, by norm_num, ?_⟩
  have hbc : bitDepthCode (2/5) = 12 := by
    unfold bitDepthCode
    exact pyInt_eq (by norm_num) (by norm_num)
  have hbs : bitDepthSpec (2/5) = 13 := by
    unfold bitDepthSpec
    rw [roundNearest_toNat_eq (n := 5) (by norm_num) (by norm_num)]
  have hr : (ringMod (fun _ => 0) [1/3] 1 (2/5)).getD 0 0 = 1/3 := by
    rw [ringMod_getD _ _ _ _ (by norm_num)]
    norm_num
  have h1 : (applyRobotVoice (fun _ => 0) [1/3] 1 (2/5)).getD 0 0 = 683/2048 := by
    rw [applyRobotVoice, if_pos (by norm_num), hbc,
      getD_map_lt _ _ (by simp [ringMod]), hr, quantize]
    have hx : (1 : ℚ)/3 * 2 ^ (12 - 1) = 2048/3 := by norm_num
    rw [hx, npround_eq_hi (z := 682) (by norm_num) (by norm_num) (by norm_num)]
    norm_num
  have h2 : (robotSpecQuant (fun _ => 0) [1/3] 1 (2/5)).getD 0 0 = 1365/4096 := by
    rw [robotSpecQuant, if_pos (by norm_num), hbs,
      getD_map_lt _ _ (by simp [ringMod]), hr, quantize]
    have hx : (1 : ℚ)/3 * 2 ^ (13 - 1) = 4096/3 := by norm_num
    rw [hx, npround_eq_lo (z := 1365) (by norm_num) (by norm_num)]
    norm_num
  intro heq
  rw [heq, h2] at h1
  norm_num at h1

-- Dynamic-range compression (`AudioProcessor._apply_compression`).

/-- One sample of `np.where(np.abs(audio) > threshold,
np.sign(audio) * (threshold + (np.abs(audio) - threshold) / ratio),
audio)`. -/
def compressSample (threshold ratio x : ℚ) : ℚ :=
  if threshold < |x| then npsign x * (threshold + (|x| - threshold) / ratio) else x

/-- `AudioProcessor._apply_compression` over a waveform. -/
def applyCompression (w : List ℚ) (threshold ratio : ℚ) : List ℚ :=
  w.map (compressSample threshold ratio)

theorem compressSample_props (t r x : ℚ) (ht : 0 < t) (hr : 1 ≤ r) :
    npsign (compressSample t r x) = npsign x ∧
    |compressSample t r x| ≤ |x| ∧
    (|x| ≤ t → compressSample t r x = x) := by
  by_cases hc : t < |x|
  · have hq0 : (0 : ℚ) < t + (|x| - t) / r :=
      lt_of_lt_of_le ht (le_add_of_nonneg_right (div_nonneg (by linarith) (by linarith)))
    have hqle : t + (|x| - t) / r ≤ |x| := by
      have := div_le_self (by linarith : (0 : ℚ) ≤ |x| - t) hr
      linarith
    rcases lt_trichotomy x 0 with hx | hx | hx
    · have hs : npsign x = -1 := by rw [npsign, if_neg (by linarith), if_pos hx]
      have he : compressSample t r x = -(t + (|x| - t) / r) := by
        rw [compressSample, if_pos hc, hs]
        ring
      rw [he]
      refine ⟨?_, ?_, fun h => absurd hc (not_lt.mpr h)⟩
      · rw [npsign, if_neg (by linarith), if_pos (by linarith), hs]
      · rw [abs_neg, abs_of_pos hq0]
        exact hqle
    · exfalso
      rw [hx, abs_zero] at hc
      linarith
    · have hs : npsign x = 1 := by rw [npsign, if_pos hx]
      have he : compressSample t r x = t + (|x| - t) / r := by
        rw [compressSample, if_pos hc, hs]
        ring
      rw [he]
      refine ⟨?_, ?_, fun h => absurd hc (not_lt.mpr h)⟩
      · rw [npsign, if_pos hq0, hs]
      · rw [abs_of_pos hq0]
        exact hqle
  · rw [compressSample, if_neg hc]
    exact ⟨rfl, le_refl _, fun _ => rfl⟩

/-- Claim C10: compression preserves each sample's sign, never increases
any sample's absolute value, and leaves samples within the threshold
unchanged (threshold > 0, ratio ≥ 1). -/
theorem compression_props (w : List ℚ) (t r : ℚ) (ht : 0 < t) (hr : 1 ≤ r) :
    (applyCompression w t r).length = w.length ∧
    ∀ n, n < w.length →
      npsign ((applyCompression w t r).getD n 0) = npsign (w.getD n 0) ∧
      |(applyCompression w t r).getD n 0| ≤ |w.getD n 0| ∧
      (|w.getD n 0| ≤ t → (applyCompression w t r).getD n 0 = w.getD n 0) := by
  refine ⟨by simp [applyCompression], fun n hn => ?_⟩
  rw [applyCompression, getD_map_lt _ _ hn]
  exact compressSample_props t r (w.getD n 0) ht hr

/-- Instance of `compression_props` with the source's default threshold 0.5 and
ratio 4 on `[1, -1/5, 0]`. -/
theorem compression_props_witness :
    (applyCompression [1, -1/5, 0] (1/2) 4).length = 3 ∧
    |(applyCompression [1, -1/5, 0] (1/2) 4).getD 0 0| ≤ |([1, -1/5, 0] : List ℚ).getD 0 0| ∧
    (applyCompression [1, -1/5, 0] (1/2) 4).getD 1 0 = ([1, -1/5, 0] : List ℚ).getD 1 0 := by
  have h := compression_props [1, -1/5, 0] (1/2) 4 (by norm_num) (by norm_num)
  refine ⟨h.1, (h.2 0 (by norm_num)).2.1, ?_⟩
  exact (h.2 1 (by norm_num)).2.2 (by norm_num [List.getD, abs_le])

-- The reverb effect.

/-- The six fixed base delays of `_apply_reverb`. -/
def delayTaps : List ℚ := [3/100, 5/100, 8/100, 13/100, 21/100, 34/100]

/-- A delayed, scaled copy of the waveform (zeros before the delay). -/
def reverbTapCopy (w : List ℚ) (d : ℕ) (g : ℚ) : List ℚ :=
  (List.range w.length).map (fun n => if d ≤ n then g * w.getD (n - d) 0 else 0)

def addLists (a b : List ℚ) : List ℚ := List.zipWith (fun x y => x + y) a b

/-- The tap loop of `_apply_reverb`.  A tap is applied only when its
delay in samples (`int(delay * sr * room_size)`) is within the waveform;
a zero-sample delay inside that guard raises in numpy (empty slice
broadcast into a non-empty one), aborting the whole effect (the `except`
branch of the caller then discards the accumulator). -/
def reverbAccum (w : List ℚ) (sr : ℕ) (room damping : ℚ) :
    List ℚ → ℕ → List ℚ → Except Unit (List ℚ)
  | [], _, acc => Except.ok acc
  | delay :: rest, i, acc =>
    if pyInt (delay * sr * room) < w.length then
      if pyInt (delay * sr * room) = 0 then Except.error ()
      else reverbAccum w sr room damping rest (i + 1)
        (addLists acc
          (reverbTapCopy w (pyInt (delay * sr * room)) ((7/10 - damping * (2/5)) ^ (i + 1))))
    else reverbAccum w sr room damping rest (i + 1) acc

/-- `VoiceEffectsProcessor._apply_reverb`: the dry signal plus the six
feed-forward taps; on a raised tap the input is returned unchanged. -/
def applyReverb (w : List ℚ) (sr : ℕ) (room damping : ℚ) : List ℚ :=
  match reverbAccum w sr room damping delayTaps 0 w with
  | Except.ok r => r
  | Except.error _ => w

-- External engines and the pipeline.

/-- The external transforms the pipeline delegates to: librosa's
`pitch_shift` and `time_stretch` (fallible: `none` models a raised
exception) and the numpy sine carrier (as in `ringMod`). -/
structure Engines where
  pitchShift : List ℚ → ℕ → ℚ → Option (List ℚ)
  timeStretch : List ℚ → ℚ → Option (List ℚ)
  sinTau : ℚ → ℚ

/-- `_apply_pitch_shift`: calls the engine, returning the input on a
raised exception. -/
def stagePitch (E : Engines) (sr : ℕ) (p : ℚ) (w : List ℚ) : List ℚ :=
  (E.pitchShift w sr p).getD w

/-- `_apply_speed_change`: calls the engine, returning the input on a
raised exception. -/
def stageSpeed (E : Engines) (s : ℚ) (w : List ℚ) : List ℚ :=
  (E.timeStretch w s).getD w

def stageRobot (E : Engines) (sr : ℕ) (i : ℚ) (w : List ℚ) : List ℚ :=
  applyRobotVoice E.sinTau w sr i

/-- The effects dictionary handed to `apply_effects`: an optional value
per stage (`none` = key absent), mirroring the `'key' in effects`
checks; the gated stages carry their flag and parameters (the parameter
fields model `effects.get(key, default)`). -/
structure EffectConfig where
  pitch_shift : Option ℚ
  speed_change : Option ℚ
  robot_voice : Bool
  robot_intensity : ℚ
  echo : Bool
  echo_delay : ℚ
  echo_decay : ℚ
  reverb : Bool
  reverb_room_size : ℚ
  reverb_damping : ℚ
  normalize : Bool

/-- `VoiceEffectsProcessor.apply_effects` after decode: the six stages
in source order, each gated exactly as in the source (`pitch_shift`
runs when present and nonzero, `speed_change` when present and ≠ 1.0,
the rest on their boolean flags). -/
def apply_effects (E : Engines) (cfg : EffectConfig) (sr : ℕ) (w : List ℚ) : List ℚ :=
  let a1 := match cfg.pitch_shift with
    | some p => if p ≠ 0 then stagePitch E sr p w else w
    | none => w
  let a2 := match cfg.speed_change with
    | some s => if s ≠ 1 then stageSpeed E s a1 else a1
    | none => a1
  let a3 := if cfg.robot_voice then stageRobot E sr cfg.robot_intensity a2 else a2
  let a4 := if cfg.echo then applyEcho a3 sr cfg.echo_delay cfg.echo_decay else a3
  let a5 := if cfg.reverb then applyReverb a4 sr cfg.reverb_room_size cfg.reverb_damping else a4
  if cfg.normalize then normalizeAudio a5 else a5

/-- The enabled primitives in the pipeline's canonical order, as the
claim states them. -/
def enabledStages (E : Engines) (cfg : EffectConfig) (sr : ℕ) : List (List ℚ → List ℚ) :=
  (match cfg.pitch_shift with
   | some p => if p ≠ 0 then [stagePitch E sr p] else []
   | none => []) ++
  (match cfg.speed_change with
   | some s => if s ≠ 1 then [stageSpeed E s] else []
   | none => []) ++
  (if cfg.robot_voice then [stageRobot E sr cfg.robot_intensity] else []) ++
  (if cfg.echo then [fun a => applyEcho a sr cfg.echo_delay cfg.echo_decay] else []) ++
  (if cfg.reverb then [fun a => applyReverb a sr cfg.reverb_room_size cfg.reverb_damping] else []) ++
  (if cfg.normalize then [normalizeAudio] else [])

/-- Claim C1: for every waveform and configuration, the pipeline equals
the composition, in the fixed canonical order pitch shift → speed →
robot → echo → reverb → normalize, of exactly the enabled primitives
applied to the decoded input. -/
theorem pipeline_canonical_order (E : Engines) (cfg : EffectConfig) (sr : ℕ) (w : List ℚ) :
    apply_effects E cfg sr w = (enabledStages E cfg sr).foldl (fun a f => f a) w := by
  rcases cfg with ⟨ps, sc, rv, ri, ec, ed, edc, rb, rrs, rd, nm⟩
  rcases ps with _ | p <;> rcases sc with _ | s <;>
    cases rv <;> cases ec <;> cases rb <;> cases nm <;>
      first
      | (by_cases hp : p ≠ 0 <;> by_cases hs : s ≠ 1 <;>
          simp [apply_effects, enabledStages, hp, hs])
      | (by_cases hp : p ≠ 0 <;> simp [apply_effects, enabledStages, hp])
      | (by_cases hs : s ≠ 1 <;> simp [apply_effects, enabledStages, hs])
      | simp [apply_effects, enabledStages]

/-- A configuration requesting only a pitch shift of 0 semitones. -/
def pitchZeroCfg : EffectConfig :=
  ⟨some 0, none, false, 1/2, false, 3/10, 1/2, false, 1/2, 1/2, false⟩

/-- A configuration requesting only a speed factor of 1.0. -/
def speedOneCfg : EffectConfig :=
  ⟨none, some 1, false, 1/2, false, 3/10, 1/2, false, 1/2, 1/2, false⟩

/-- A configuration requesting only the robot effect at intensity 0. -/
def robotZeroCfg : EffectConfig :=
  ⟨none, none, true, 0, false, 3/10, 1/2, false, 1/2, 1/2, false⟩

/-- Claim C3: the pipeline with pitch shift 0 is the identity, with
speed factor 1.0 is the identity, and with robot intensity 0.0 is the
identity (the ring-modulation term vanishes and, 0 ≤ 0.3, no bit-depth
quantization occurs). -/
theorem pipeline_identity_parameters (E : Engines) (sr : ℕ) (w : List ℚ) :
    apply_effects E pitchZeroCfg sr w = w ∧
    apply_effects E speedOneCfg sr w = w ∧
    apply_effects E robotZeroCfg sr w = w ∧
    applyRobotVoice E.sinTau w sr 0 = w := by
  have hrz := applyRobotVoice_zero E.sinTau w sr
  refine ⟨?_, ?_, ?_, hrz⟩
  · simp [apply_effects, pitchZeroCfg]
  · simp [apply_effects, speedOneCfg]
  · simp [apply_effects, robotZeroCfg, stageRobot, hrz]

-- The API validation layer (`apply_voice_effects` in the API module).

/-- The fields the endpoint validates, in source order; an error response
names the violated field. -/
inductive VField : Type where
  | pitchShift
  | speedChange
  | robotIntensity
  | echoDelay
  | echoDecay
  | reverbRoomSize
  | reverbDamping
  | outputFormat
  deriving DecidableEq

/-- The form parameters of the `/apply` endpoint (defaults as declared
in the route signature). -/
structure RequestParams where
  pitch_shift : ℚ
  speed_change : ℚ
  robot_voice : Bool
  robot_intensity : ℚ
  echo : Bool
  echo_delay : ℚ
  echo_decay : ℚ
  reverb : Bool
  reverb_room_size : ℚ
  reverb_damping : ℚ
  normalize : Bool
  output_format : String

/-- The endpoint's validation if-chain, in source order; the first
violated range raises, naming its field. -/
def validateParams (r : RequestParams) : Option VField :=
  if ¬(-12 ≤ r.pitch_shift ∧ r.pitch_shift ≤ 12) then some VField.pitchShift
  else if ¬(1/4 ≤ r.speed_change ∧ r.speed_change ≤ 4) then some VField.speedChange
  else if ¬(0 ≤ r.robot_intensity ∧ r.robot_intensity ≤ 1) then some VField.robotIntensity
  else if ¬(1/10 ≤ r.echo_delay ∧ r.echo_delay ≤ 2) then some VField.echoDelay
  else if ¬(1/10 ≤ r.echo_decay ∧ r.echo_decay ≤ 9/10) then some VField.echoDecay
  else if ¬(1/10 ≤ r.reverb_room_size ∧ r.reverb_room_size ≤ 1) then some VField.reverbRoomSize
  else if ¬(1/10 ≤ r.reverb_damping ∧ r.reverb_damping ≤ 1) then some VField.reverbDamping
  else if ¬(r.output_format = "wav" ∨ r.output_format = "mp3" ∨
            r.output_format = "ogg" ∨ r.output_format = "flac") then some VField.outputFormat
  else none

/-- All violated constraints, in the same fixed order. -/
def violations (r : RequestParams) : List VField :=
  (if ¬(-12 ≤ r.pitch_shift ∧ r.pitch_shift ≤ 12) then [VField.pitchShift] else []) ++
  (if ¬(1/4 ≤ r.speed_change ∧ r.speed_change ≤ 4) then [VField.speedChange] else []) ++
  (if ¬(0 ≤ r.robot_intensity ∧ r.robot_intensity ≤ 1) then [VField.robotIntensity] else []) ++
  (if ¬(1/10 ≤ r.echo_delay ∧ r.echo_delay ≤ 2) then [VField.echoDelay] else []) ++
  (if ¬(1/10 ≤ r.echo_decay ∧ r.echo_decay ≤ 9/10) then [VField.echoDecay] else []) ++
  (if ¬(1/10 ≤ r.reverb_room_size ∧ r.reverb_room_size ≤ 1) then [VField.reverbRoomSize] else []) ++
  (if ¬(1/10 ≤ r.reverb_damping ∧ r.reverb_damping ≤ 1) then [VField.reverbDamping] else []) ++
  (if ¬(r.output_format = "wav" ∨ r.output_format = "mp3" ∨
        r.output_format = "ogg" ∨ r.output_format = "flac") then [VField.outputFormat] else [])

/-- The effects dictionary the endpoint builds and hands to
`apply_effects`: every key present, straight from the form fields. -/
def toEffectConfig (r : RequestParams) : EffectConfig :=
  ⟨some r.pitch_shift, some r.speed_change, r.robot_voice, r.robot_intensity,
   r.echo, r.echo_delay, r.echo_decay, r.reverb, r.reverb_room_size,
   r.reverb_damping, r.normalize⟩

/-- The endpoint's successful response: the processed audio plus the
`X-Effects-Applied` header, which is `json.dumps(effects)` — the
requested effects dictionary verbatim, independent of what actually
ran. -/
structure EffectsResponse where
  audio : List ℚ
  reportedEffects : EffectConfig

/-- The `/apply` endpoint: validate (fail-fast, before any processing),
then run the pipeline and reply with the requested-effects header. -/
def applyVoiceEffects (E : Engines) (r : RequestParams) (sr : ℕ) (w : List ℚ) :
    Except VField EffectsResponse :=
  match validateParams r with
  | some f => Except.error f
  | none => Except.ok ⟨apply_effects E (toEffectConfig r) sr w, toEffectConfig r⟩

/-- Request with the given pitch shift and every other field at its
form default. -/
def paramsWithPitch (p : ℚ) : RequestParams :=
  ⟨p, 1, false, 1/2, false, 3/10, 1/2, false, 1/2, 1/2, true, "wav"⟩

theorem head_chain {α : Type} (c : Prop) [Decidable c] (a : α) (o : Option α) (l : List α)
    (h : o = l.head?) :
    (if ¬c then some a else o) = ((if ¬c then [a] else []) ++ l).head? := by
  by_cases hc : c <;> simp [hc, h]

theorem head_chain_last {α : Type} (c : Prop) [Decidable c] (a : α) :
    (if ¬c then some a else none) = (if ¬c then [a] else []).head? := by
  by_cases hc : c <;> simp [hc]

/-- The request used in the C5 witness: pitch 13 and speed 5 both
violate their ranges; pitch is first. -/
def badParams : RequestParams :=
  ⟨13, 5, false, 1/2, false, 3/10, 1/2, false, 1/2, 1/2, true, "wav"⟩

/-- Claim C5: validation checks the fields in a fixed order and reports
exactly the first violated constraint (fail-fast), naming the field,
before any processing runs; pitch 13 is rejected naming the pitch field,
pitch 12 (the inclusive bound) is accepted. -/
theorem validation_fail_fast (E : Engines) (r : RequestParams) (sr : ℕ) (w : List ℚ) :
    validateParams r = (violations r).head? ∧
    (∀ f, validateParams r = some f → applyVoiceEffects E r sr w = Except.error f) ∧
    validateParams (paramsWithPitch 13) = some VField.pitchShift ∧
    validateParams (paramsWithPitch 12) = none := by
  refine ⟨?_, ?_, ?_, ?_⟩
  · rw [validateParams, violations]
    simp only [List.append_assoc]
    refine head_chain (-12 ≤ r.pitch_shift ∧ r.pitch_shift ≤ 12) _ _ _ ?_
    refine head_chain (1/4 ≤ r.speed_change ∧ r.speed_change ≤ 4) _ _ _ ?_
    refine head_chain (0 ≤ r.robot_intensity ∧ r.robot_intensity ≤ 1) _ _ _ ?_
    refine head_chain (1/10 ≤ r.echo_delay ∧ r.echo_delay ≤ 2) _ _ _ ?_
    refine head_chain (1/10 ≤ r.echo_decay ∧ r.echo_decay ≤ 9/10) _ _ _ ?_
    refine head_chain (1/10 ≤ r.reverb_room_size ∧ r.reverb_room_size ≤ 1) _ _ _ ?_
    refine head_chain (1/10 ≤ r.reverb_damping ∧ r.reverb_damping ≤ 1) _ _ _ ?_
    exact head_chain_last (r.output_format = "wav" ∨ r.output_format = "mp3" ∨
      r.output_format = "ogg" ∨ r.output_format = "flac") _
  · intro f hf
    rw [applyVoiceEffects, hf]
  · rw [validateParams, if_pos (by norm_num [paramsWithPitch])]
  · rw [validateParams,
      if_neg (by norm_num [paramsWithPitch]),
      if_neg (by norm_num [paramsWithPitch]),
      if_neg (by norm_num [paramsWithPitch]),
      if_neg (by norm_num [paramsWithPitch]),
      if_neg (by norm_num [paramsWithPitch]),
      if_neg (by norm_num [paramsWithPitch]),
      if_neg (by norm_num [paramsWithPitch]),
      if_neg (by simp [paramsWithPitch])]

/-- Instance of `validation_fail_fast`: with both the pitch and the
speed field out of range, the first (pitch) is reported and the endpoint
returns it without processing. -/
theorem validation_fail_fast_witness :
    applyVoiceEffects ⟨fun _ _ _ => none, fun _ _ => none, fun _ => 0⟩
      badParams 10 [1] = Except.error VField.pitchShift := by
  have h := validation_fail_fast ⟨fun _ _ _ => none, fun _ _ => none, fun _ => 0⟩
    badParams 10 [1]
  exact h.2.1 VField.pitchShift
    (by rw [validateParams, if_pos (by norm_num [badParams])])

-- Stage-failure isolation and the accompanying report (C7).

/-- Engines whose every call raises. -/
def failingEngines : Engines := ⟨fun _ _ _ => none, fun _ _ => none, fun _ => 0⟩

/-- A valid request enabling pitch shift (5), speed change (2) and echo
(delay 0.1 s); robot, reverb and normalize stay off.  At sr = 5 Hz the
echo delay is `int(0.1*5) = 0` samples, which makes the echo stage
raise, so every enabled stage of this request fails. -/
def worstCaseRequest : RequestParams :=
  ⟨5, 2, false, 1/2, true, 1/10, 1/2, false, 1/2, 1/2, false, "wav"⟩

/-- The effect names a reader of the `X-Effects-Applied` header finds
enabled in the reported dictionary. -/
def enabledStageNames (cfg : EffectConfig) : List String :=
  (match cfg.pitch_shift with
   | some p => if p ≠ 0 then ["pitch_shift"] else []
   | none => []) ++
  (match cfg.speed_change with
   | some s => if s ≠ 1 then ["speed_change"] else []
   | none => []) ++
  (if cfg.robot_voice then ["robot_voice"] else []) ++
  (if cfg.echo then ["echo"] else []) ++
  (if cfg.reverb then ["reverb"] else []) ++
  (if cfg.normalize then ["normalize"] else [])

theorem worstCase_valid : validateParams worstCaseRequest = none := by
  rw [validateParams,
    if_neg (by norm_num [worstCaseRequest]),
    if_neg (by norm_num [worstCaseRequest]),
    if_neg (by norm_num [worstCaseRequest]),
    if_neg (by norm_num [worstCaseRequest]),
    if_neg (by norm_num [worstCaseRequest]),
    if_neg (by norm_num [worstCaseRequest]),
    if_neg (by norm_num [worstCaseRequest]),
    if_neg (by simp [worstCaseRequest])]

theorem worstCase_echo_delay_zero : pyInt ((1 : ℚ)/10 * (5 : ℕ)) = 0 :=
  pyInt_eq (by push_cast; norm_num) (by push_cast; norm_num)

/-- Claim C7 fails as stated: with every enabled stage failing, the
pipeline does return the decoded input unchanged as a successful
response, but the accompanying report (the `X-Effects-Applied` header)
is the requested effects dictionary verbatim — it still lists
pitch_shift, speed_change and echo as the applied effects; nothing is
marked "skipped" and the applied-effects list is not empty. -/
theorem pipeline_report_counterexample :
    applyVoiceEffects failingEngines worstCaseRequest 5 [1/2, 1/4] =
      Except.ok ⟨[1/2, 1/4], toEffectConfig worstCaseRequest⟩ ∧
    enabledStageNames (toEffectConfig worstCaseRequest) =
      ["pitch_shift", "speed_change", "echo"] := by
  constructor
  · rw [applyVoiceEffects, worstCase_valid]
    have h3 : applyEcho [1/2, 1/4] 5 ((1 : ℚ)/10) (1/2) = [1/2, 1/4] := by
      rw [applyEcho, if_pos ⟨worstCase_echo_delay_zero, by simp⟩]
    norm_num [apply_effects, toEffectConfig, worstCaseRequest, failingEngines,
      stagePitch, stageSpeed, h3]
  · norm_num [enabledStageNames, toEffectConfig, worstCaseRequest]

/-- Claim C7 (amended): if an enabled primitive raises, the pipeline
continues with the pre-stage waveform unchanged (the failure is only
logged; no status report exists); in the worst case, with every enabled
stage failing, the endpoint still replies successfully with the decoded
input unchanged, and the accompanying `X-Effects-Applied` header carries
the requested effects dictionary verbatim. -/
theorem pipeline_stage_isolation (E : Engines) (r : RequestParams) (sr : ℕ) (w : List ℚ)
    (hv : validateParams r = none)
    (hp : ∀ a, E.pitchShift a sr r.pitch_shift = none)
    (hs : ∀ a, E.timeStretch a r.speed_change = none)
    (hrob : r.robot_voice = false) (hrev : r.reverb = false)
    (hnorm : r.normalize = false)
    (hecho : pyInt (r.echo_delay * sr) = 0) (hw : w ≠ []) :
    applyVoiceEffects E r sr w = Except.ok ⟨w, toEffectConfig r⟩ := by
  have h1 : ∀ a, stagePitch E sr r.pitch_shift a = a := fun a => by
    rw [stagePitch, hp a]
    rfl
  have h2 : ∀ a, stageSpeed E r.speed_change a = a := fun a => by
    rw [stageSpeed, hs a]
    rfl
  have h3 : applyEcho w sr r.echo_delay r.echo_decay = w := by
    rw [applyEcho, if_pos ⟨hecho, hw⟩]
  rw [applyVoiceEffects, hv]
  simp [apply_effects, toEffectConfig, hrob, hrev, hnorm, h1, h2, h3]

/-- Instance of `pipeline_stage_isolation` on the waveform `[1/3]` with
all-failing engines and `worstCaseRequest`. -/
theorem pipeline_stage_isolation_witness :
    applyVoiceEffects failingEngines worstCaseRequest 5 [1/3] =
      Except.ok ⟨[1/3], toEffectConfig worstCaseRequest⟩ :=
  pipeline_stage_isolation failingEngines worstCaseRequest 5 [1/3]
    worstCase_valid (fun _ => rfl) (fun _ => rfl) rfl rfl rfl
    worstCase_echo_delay_zero (by simp)

-- Decode with fallback (`VoiceEffectsProcessor._load_audio`).

/-- The mono pydub segment obtained by `AudioSegment.from_file` followed
by `set_channels(1)`: raw integer samples, the sample width in bytes and
the native frame rate. -/
structure SegmentData where
  samples : List ℤ
  sampleWidth : ℕ
  frameRate : ℕ

/-- The numpy conversion of the fallback path: int16 samples are scaled
by 1/32768, anything else by 1/2147483648; the rate is the segment's
native frame rate. -/
def decodeSegment (seg : SegmentData) : List ℚ × ℕ :=
  if seg.sampleWidth = 2 then
    (seg.samples.map (fun s => (s : ℚ) / 32768), seg.frameRate)
  else
    (seg.samples.map (fun s => (s : ℚ) / 2147483648), seg.frameRate)

/-- `_load_audio`: try librosa (mono, native rate); on failure try the
pydub fallback; if that also fails, the bare `raise` re-raises the
fallback's exception only (the librosa error was merely logged).  The
error type is the list of causes the raised exception carries. -/
def loadAudio {α : Type} (primary : α → Except String (List ℚ × ℕ))
    (fallbackSeg : α → Except String SegmentData) (x : α) :
    Except (List String) (List ℚ × ℕ) :=
  match primary x with
  | Except.ok r => Except.ok r
  | Except.error _ =>
    match fallbackSeg x with
    | Except.ok seg => Except.ok (decodeSegment seg)
    | Except.error e2 => Except.error [e2]

/-- Claim C8 (amended): decode tries the primary decoder first and the
fallback only on primary failure; when both fail it fails carrying only
the fallback's cause (both causes are logged, but the raised error
carries just the fallback's); a successful fallback decode is mono at
the segment's native frame rate. -/
theorem load_audio_fallback {α : Type} (primary : α → Except String (List ℚ × ℕ))
    (fallbackSeg : α → Except String SegmentData) (x : α) :
    (∀ r, primary x = Except.ok r → loadAudio primary fallbackSeg x = Except.ok r) ∧
    (∀ e1 seg, primary x = Except.error e1 → fallbackSeg x = Except.ok seg →
      loadAudio primary fallbackSeg x = Except.ok (decodeSegment seg) ∧
      (decodeSegment seg).2 = seg.frameRate) ∧
    (∀ e1 e2, primary x = Except.error e1 → fallbackSeg x = Except.error e2 →
      loadAudio primary fallbackSeg x = Except.error [e2]) := by
  refine ⟨?_, ?_, ?_⟩
  · intro r hr
    rw [loadAudio, hr]
  · intro e1 seg h1 h2
    constructor
    · rw [loadAudio, h1, h2]
    · by_cases hw : seg.sampleWidth = 2 <;> simp [decodeSegment, hw]
  · intro e1 e2 h1 h2
    rw [loadAudio, h1, h2]

/-- Instance of `load_audio_fallback`: primary fails, the fallback
decodes a one-sample 16-bit segment at 22050 Hz. -/
theorem load_audio_fallback_witness :
    loadAudio (fun _ : Unit => Except.error "librosa error")
      (fun _ : Unit => Except.ok (⟨[16384], 2, 22050⟩ : SegmentData)) () =
      Except.ok ([(16384 : ℚ)/32768], 22050) := by
  have h := load_audio_fallback (fun _ : Unit => Except.error "librosa error")
    (fun _ : Unit => Except.ok (⟨[16384], 2, 22050⟩ : SegmentData)) ()
  have h2 := (h.2.1 "librosa error" ⟨[16384], 2, 22050⟩ rfl rfl).1
  rw [h2]
  norm_num [decodeSegment]

/-- Claim C8 fails as stated: when both decoders fail, the raised error
carries only the fallback decoder's cause; the primary's cause is not
attached. -/
theorem decode_error_counterexample :
    loadAudio (fun _ : Unit => Except.error "librosa error")
      (fun _ : Unit => (Except.error "pydub error" : Except String SegmentData)) () =
      Except.error ["pydub error"] ∧
    "librosa error" ∉ ["pydub error"] := by
  constructor
  · rfl
  · simp
